import Mathlib

/-!
Shallow embedding of the agentvault core: the SQLite-backed document store
of src/index/build_index.py and the search entry point of src/agent/run.py.

Modelling choices, all taken from the source:
* The docs table is a list of rows kept in rowid order (INSERT appends with
  a fresh surrogate id, UPDATE rewrites a row in place), together with the
  next free rowid.  The external-content FTS5 table docs_fts is a second
  list of rows.  The three triggers of init_schema (docs_ai, docs_ad,
  docs_au) are folded into the embedded INSERT and UPDATE statements,
  because SQLite runs them as part of the mutating statement: an INSERT on
  docs also inserts the docs_fts row, an UPDATE deletes the old docs_fts
  row and inserts the new one.
* hashlib.sha256 and datetime.now are external inputs of upsert_doc; they
  enter the model as parameters (a digest function and a timestamp string).
* The FTS5 MATCH / bm25 / snippet machinery of run.py is external library
  code (SQLite); it is embedded from its documented behaviour: the
  unicode61 tokenizer lowercases and splits on non-alphanumeric characters,
  a MATCH expression is a sequence of bare terms and double-quoted phrases
  under implicit AND (an unterminated quote, an empty or all-whitespace
  query, a bare upper-case operator keyword, and stray punctuation are
  query syntax errors raised to the caller; FTS5 syntax beyond this
  conjunctive fragment, such as the prefix star and infix boolean
  operators, is outside the model),
  and bm25 returns the negated BM25 score (k1 = 1.2, b = 0.75) so that
  ORDER BY bm25(...) ascending lists best matches first.  Floating point
  is modelled with exact rationals; the inverse-document-frequency factor
  uses a natural logarithm and therefore enters as a parameter, pinned by
  the clamp of the SQLite implementation: whenever the raw idf would be
  nonpositive (at least half of the rows contain the phrase) the value is
  exactly 1/1000000.
-/

/-- A row of the docs table (init_schema in build_index.py): id INTEGER
PRIMARY KEY, source and path and content NOT NULL, optional title and
created_at, sha256, ingested_at NOT NULL. -/
structure Doc where
  id : Nat
  source : String
  path : String
  title : Option String
  created_at : Option String
  content : String
  sha256 : String
  ingested_at : String
deriving DecidableEq

/-- A row of the external-content FTS5 table docs_fts: rowid mirrors
docs.id, indexed columns title and content, unindexed columns source and
path. -/
structure FtsRow where
  rowid : Nat
  title : Option String
  content : String
  source : String
  path : String
deriving DecidableEq

/-- The database state: the docs table in rowid order, the docs_fts table,
and the next surrogate id SQLite would assign (max rowid + 1). -/
structure DB where
  docs : List Doc
  fts : List FtsRow
  nextId : Nat
deriving DecidableEq

/-- A freshly initialised database: both tables empty, first rowid 1. -/
def DB.empty : DB := ⟨[], [], 1⟩

/-- The docs_fts row produced from a docs row by the triggers. -/
def Doc.toFtsRow (d : Doc) : FtsRow := ⟨d.id, d.title, d.content, d.source, d.path⟩

/-- The WHERE clause of the SELECT in upsert_doc: source=? AND path=?. -/
def keyMatches (source path : String) (d : Doc) : Bool :=
  d.source == source && d.path == path

/-- The three ways an upsert can act on the store.  The Python function
returns None; the spec names the branch that was taken (early return /
UPDATE / INSERT), which is what this type records. -/
inductive UpsertResult
  | created
  | updated
  | unchanged
deriving DecidableEq

/-- Which branch upsert_doc takes: SELECT the first row at (source, path);
if present and its stored sha256 equals the digest of the new content the
call is a no-op, else it updates; with no row it inserts. -/
def upsertOutcome (hash : String → String) (source path content : String)
    (db : DB) : UpsertResult :=
  match db.docs.find? (keyMatches source path) with
  | some row => if row.sha256 == hash content then .unchanged else .updated
  | none => .created

/-- The SET clause of the UPDATE in upsert_doc, applied to the row whose
id is the one found (WHERE id=?): title, created_at, content, sha256 and
ingested_at are overwritten, everything else kept. -/
def updWith (t ca : Option String) (c sha now : String) (i : Nat)
    (d : Doc) : Doc :=
  if d.id == i then
    { d with title := t, created_at := ca, content := c, sha256 := sha,
             ingested_at := now }
  else d

/-- upsert_doc of build_index.py.  `hash` stands for hashlib.sha256 and
`now` for datetime.now(timezone.utc).isoformat(), both external inputs.
The UPDATE branch rewrites the found row in place (docs_au then replaces
the docs_fts row: delete old rowid, insert the new values); the INSERT
branch appends a fresh row (docs_ai inserts the docs_fts row). -/
def upsert_doc (hash : String → String) (now : String) (source path : String)
    (title created_at : Option String) (content : String) (db : DB) : DB :=
  let sha := hash content
  match db.docs.find? (keyMatches source path) with
  | some row =>
    if row.sha256 == sha then db
    else
      { db with
        docs := db.docs.map (updWith title created_at content sha now row.id),
        fts := db.fts.filter (fun r => r.rowid != row.id) ++
          [⟨row.id, title, content, source, path⟩] }
  | none =>
    { docs := db.docs ++
        [⟨db.nextId, source, path, title, created_at, content, sha, now⟩],
      fts := db.fts ++ [⟨db.nextId, title, content, source, path⟩],
      nextId := db.nextId + 1 }

/-- One upsert call as issued by the ingestion drivers: its wall-clock
timestamp and the five document fields. -/
structure Op where
  now : String
  source : String
  path : String
  title : Option String
  created_at : Option String
  content : String

/-- Run one Op against the store. -/
def applyOp (hash : String → String) (db : DB) (op : Op) : DB :=
  upsert_doc hash op.now op.source op.path op.title op.created_at op.content db

/-- Run a whole sequence of upsert calls, first to last. -/
def applyOps (hash : String → String) (db : DB) (ops : List Op) : DB :=
  ops.foldl (applyOp hash) db

/-- The unicode61 tokenizer of FTS5 on its default settings, restricted to
the inputs this repository feeds it: lowercase-fold, split on
non-alphanumeric characters, discard empty tokens.  The accumulator holds
the current token reversed. -/
def tokenizeAux : List Char → List Char → List String
  | [], cur => if cur = [] then [] else [String.mk cur.reverse]
  | c :: rest, cur =>
    if c.isAlphanum then tokenizeAux rest (c.toLower :: cur)
    else if cur = [] then tokenizeAux rest []
    else String.mk cur.reverse :: tokenizeAux rest []

/-- Tokenize a column value or a query term. -/
def tokenize (s : String) : List String := tokenizeAux s.toList []

/-- State of the FTS5 query scanner: at top level, inside a bare term
(accumulated reversed), or inside a double-quoted string (accumulated
reversed). -/
inductive QState
  | top : QState
  | term : List Char → QState
  | phrase : List Char → QState

/-- The query-language keywords of FTS5, recognised in upper case only; a
keyword standing on its own as a bare term is a syntax error in the real
engine. -/
def fts5Keywords : List String := ["AND", "OR", "NOT", "NEAR"]

/-- Close a bare term of the query: an upper-case keyword is an operator,
which the modelled fragment has no place for (and which is a syntax error
in the real engine whenever it lacks an operand); any other bare term
tokenizes to a one-token phrase. -/
def endTerm (cur : List Char) : Except String (List String) :=
  if fts5Keywords.contains (String.mk cur.reverse) then
    Except.error "fts5 syntax error: boolean operator"
  else Except.ok (tokenize (String.mk cur.reverse))

/-- The FTS5 MATCH expression scanner, restricted to the conjunctive
fragment the spec names as the target grammar: whitespace-separated bare
terms and double-quoted phrases, combined by implicit AND.  Every query
this scanner accepts is accepted by real FTS5 with the same conjunctive
meaning.  The error cases the claims rely on mirror the real engine,
which sqlite3 raises to the Python caller (run.py does not catch them):
an unterminated quoted string, an empty or all-whitespace query, a bare
upper-case operator keyword, an empty quoted string, and stray
punctuation are all syntax errors.  FTS5 syntax outside the fragment —
the trailing-star prefix operator, infix boolean operators, NEAR(),
column filters, quote escaping, and phrase juxtaposition without
whitespace — is not modelled and is likewise mapped to an error, so an
error result of the model is meaningful only for the documented error
cases above.  Each parsed unit is the list of its tokens (a bare term
yields a single token). -/
def parseQAux : List Char → QState → Except String (List (List String))
  | [], .top => Except.ok []
  | [], .term cur => (endTerm cur).map (fun ph => [ph])
  | [], .phrase _ => Except.error "unterminated quoted string in query"
  | c :: rest, .top =>
    if c = '"' then parseQAux rest (.phrase [])
    else if c.isAlphanum then parseQAux rest (.term [c])
    else if c.isWhitespace then parseQAux rest .top
    else Except.error "fts5 syntax error"
  | c :: rest, .term cur =>
    if c.isAlphanum then parseQAux rest (.term (c :: cur))
    else if c.isWhitespace then
      match endTerm cur with
      | Except.error e => Except.error e
      | Except.ok ph => (parseQAux rest .top).map (fun ps => ph :: ps)
    else Except.error "fts5 syntax error"
  | c :: rest, .phrase cur =>
    if c = '"' then
      if tokenize (String.mk cur.reverse) = [] then
        Except.error "fts5 syntax error"
      else
        match rest with
        | [] => Except.ok [tokenize (String.mk cur.reverse)]
        | c2 :: rest2 =>
          if c2.isWhitespace then
            (parseQAux rest2 .top).map
              (fun ps => tokenize (String.mk cur.reverse) :: ps)
          else Except.error "fts5 syntax error"
    else parseQAux rest (.phrase (c :: cur))

/-- Parse a MATCH expression into its phrases, or a syntax error.  A query
holding no phrase at all (empty or all whitespace) is a syntax error in
the real engine. -/
def parseQuery (q : String) : Except String (List (List String)) :=
  match parseQAux q.toList .top with
  | Except.ok [] => Except.error "fts5 syntax error: empty query"
  | r => r

/-- Does the phrase occur at the head of the token list? -/
def phraseAt : List String → List String → Bool
  | [], _ => true
  | _ :: _, [] => false
  | p :: ps, h :: hs => (p == h) && phraseAt ps hs

/-- Does the phrase occur, with exact token adjacency, anywhere in the
token list? -/
def phraseIn (pat : List String) : List String → Bool
  | [] => pat == []
  | h :: hs => phraseAt pat (h :: hs) || phraseIn pat hs

/-- Number of token positions at which the phrase occurs. -/
def phraseCount (pat : List String) : List String → Nat
  | [] => 0
  | h :: hs => (if phraseAt pat (h :: hs) then 1 else 0) + phraseCount pat hs

/-- Tokens of the title column of a docs_fts row (a NULL column indexes as
empty). -/
def FtsRow.titleTokens (r : FtsRow) : List String := tokenize (r.title.getD "")

/-- Tokens of the content column of a docs_fts row. -/
def FtsRow.contentTokens (r : FtsRow) : List String := tokenize r.content

/-- A phrase matches a row if it occurs in one of the indexed columns. -/
def matchesPhrase (r : FtsRow) (p : List String) : Bool :=
  phraseIn p r.titleTokens || phraseIn p r.contentTokens

/-- A row satisfies a MATCH expression if every phrase matches (implicit
AND). -/
def matchesQuery (r : FtsRow) (ps : List (List String)) : Bool :=
  ps.all (fun p => matchesPhrase r p)

/-- Token count of a row over the indexed columns (the document length of
the bm25 formula). -/
def rowLen (r : FtsRow) : Nat := r.titleTokens.length + r.contentTokens.length

/-- Average document length over the whole docs_fts table. -/
def avgdl (db : DB) : ℚ :=
  ((db.fts.map rowLen).sum : ℚ) / (db.fts.length : ℚ)

/-- Number of rows of docs_fts containing the phrase (the df of the bm25
formula). -/
def nHit (db : DB) (p : List String) : Nat :=
  (db.fts.filter (fun r => matchesPhrase r p)).length

/-- Occurrences of the phrase in a row, summed over the indexed columns
with their default weight 1.0. -/
def phraseFreq (r : FtsRow) (p : List String) : Nat :=
  phraseCount p r.titleTokens + phraseCount p r.contentTokens

/-- bm25 parameter k1 of the SQLite implementation. -/
def k1 : ℚ := 6 / 5

/-- bm25 parameter b of the SQLite implementation. -/
def bCoef : ℚ := 3 / 4

/-- One summand of the BM25 score: idf times the saturated, length
normalised term frequency. -/
def bm25Term (idf tf dl avg : ℚ) : ℚ :=
  idf * ((tf * (k1 + 1)) / (tf + k1 * (1 - bCoef + bCoef * dl / avg)))

/-- The idf factor of each phrase of the query.  `idfF` abstracts the idf
computation log((N - df + 0.5) / (df + 0.5)) of the SQLite implementation,
applied to the row count and the df of each phrase; it is a parameter
because the logarithm is transcendental, and the theorems pin it down
through the clamp documented above. -/
def phraseIdfs (idfF : Nat → Nat → ℚ) (db : DB) (ps : List (List String)) :
    List ℚ :=
  ps.map (fun p => idfF db.fts.length (nHit db p))

/-- The value of the SQLite bm25() auxiliary function on a row: the
negation of the BM25 score summed over the phrases of the query (paired
with their idf factors), so that ascending order is descending
relevance. -/
def bm25Value (idfs : List ℚ) (db : DB) (ps : List (List String))
    (r : FtsRow) : ℚ :=
  - (((ps.zip idfs).map (fun pi =>
      bm25Term pi.2 (phraseFreq r pi.1 : ℚ) (rowLen r : ℚ) (avgdl db))).sum)

/-- Comparison used to ORDER BY bm25(docs_fts). -/
def rankLe (idfs : List ℚ) (db : DB) (ps : List (List String))
    (a b : FtsRow × Doc) : Bool :=
  decide (bm25Value idfs db ps a.1 ≤ bm25Value idfs db ps b.1)

/-- Insert into a list sorted by `le`, before the first element not below
the new one (stable: an element equal in rank to an earlier one stays
behind it, matching the scan order SQLite keeps for ties). -/
def orderedInsertB (le : α → α → Bool) (a : α) : List α → List α
  | [] => [a]
  | b :: l => if le a b then a :: b :: l else b :: orderedInsertB le a l

/-- Stable insertion sort by `le`. -/
def insertionSortB (le : α → α → Bool) : List α → List α
  | [] => []
  | a :: l => orderedInsertB le a (insertionSortB le l)

/-- The ellipsis marker run.py passes to snippet(); the source file holds
these literal characters. -/
def ellipsisMark : String := "â€¦"

/-- Simplified model of the external FTS5 snippet() auxiliary on column 1
(content) with markers from run.py: bracket every token matching a query
token; when the column has more than 12 tokens keep a 12-token window
anchored at the first match, with ellipsis markers at a cut edge.  The
claims do not depend on the windowing details; on columns of at most 12
tokens this agrees with FTS5 (the whole column with matches bracketed). -/
def snippetOf (ps : List (List String)) (content : String) : String :=
  let toks := tokenize content
  let qs := ps.flatten
  let marked := toks.map (fun t =>
    if qs.contains t then "[" ++ t ++ "]" else t)
  if toks.length ≤ 12 then String.intercalate " " marked
  else
    let i := toks.findIdx (fun t => qs.contains t)
    let start := min (if i = toks.length then 0 else i) (toks.length - 12)
    (if start = 0 then "" else ellipsisMark) ++
      String.intercalate " " ((marked.drop start).take 12) ++
      (if start + 12 < toks.length then ellipsisMark else "")

/-- The FROM/WHERE part of the query in run.py: rows of docs_fts matching
the expression, joined to docs on d.id = docs_fts.rowid. -/
def searchMatches (db : DB) (ps : List (List String)) : List (FtsRow × Doc) :=
  (db.fts.filter (fun r => matchesQuery r ps)).filterMap
    (fun r => (db.docs.find? (fun d => d.id == r.rowid)).map (fun d => (r, d)))

/-- The SELECT list of run.py, as the Python dict each row becomes:
d.source, d.path, COALESCE(d.title, empty), snippet of the content
column. -/
def resultRow (ps : List (List String)) (rd : FtsRow × Doc) :
    List (String × String) :=
  [("source", rd.2.source), ("path", rd.2.path),
   ("title", rd.2.title.getD ""), ("snippet", snippetOf ps rd.1.content)]

/-- The body of the query of run.py once the MATCH expression is parsed:
matching rows joined to docs, ORDER BY bm25(docs_fts), LIMIT, and the
result dicts of the SELECT list. -/
def searchCore (idfs : List ℚ) (db : DB) (ps : List (List String))
    (limit : Nat) : List (List (String × String)) :=
  ((insertionSortB (rankLe idfs db ps) (searchMatches db ps)).take
    limit).map (resultRow ps)

/-- search of run.py: parse the MATCH expression (a malformed one raises
to the caller) and run the query. -/
def searchModel (idfF : Nat → Nat → ℚ) (db : DB) (query : String)
    (limit : Nat) : Except String (List (List (String × String))) :=
  match parseQuery query with
  | Except.error e => Except.error e
  | Except.ok ps => Except.ok (searchCore (phraseIdfs idfF db ps) db ps limit)

/-- A document as yielded by the ChatGPT producers before upsert: the
title is always a string there (a default is substituted), created_at may
be absent, content is a string. -/
structure RawDoc where
  title : String
  created_at : Option String
  content : String
deriving DecidableEq

/-- A file under vault/chatgpt as ingest_chatgpt dispatches on its name:
an .html file (its extracted text is carried, BeautifulSoup being
external), a .json file with "conversation" in the name (carrying the
outcome of json.loads plus the transcript walk, which raises on a
malformed file), or a file matching neither pattern. -/
inductive VaultFile
  | html (path : String) (text : String)
  | convJson (path : String) (convs : Except String (List RawDoc))
  | other (path : String)

/-- Last component of a path, as pathlib's Path.name. -/
def baseName (p : String) : String := (p.splitOn "/").getLastD p

/-- The inner loop over the conversations yielded from one .json file:
each is upserted under source chatgpt and the path of the file, and the
document counter is incremented. -/
def convFold (hash : String → String) (now p : String) (ds : List RawDoc)
    (acc : DB × Nat) : DB × Nat :=
  ds.foldl (fun acc2 r =>
    (upsert_doc hash now "chatgpt" p (some r.title) r.created_at
      r.content acc2.1, acc2.2 + 1)) acc

/-- Process one file as the body of the loop in ingest_chatgpt does:
an .html file upserts one document titled from the file name; a
conversations .json file upserts every yielded conversation under the same
(source, path) key, or raises if parsing raised; any other file is
skipped.  `n` is the running document counter. -/
def ingestFile (hash : String → String) (now : String) (db : DB) (n : Nat) :
    VaultFile → Except String (DB × Nat)
  | .html p text =>
    Except.ok
      (upsert_doc hash now "chatgpt" p (some ("ChatGPT export: " ++ baseName p))
        none text db, n + 1)
  | .convJson p res =>
    match res with
    | Except.error e => Except.error e
    | Except.ok ds => Except.ok (convFold hash now p ds (db, n))
  | .other _ => Except.ok (db, n)

/-- One iteration of the ingestion loop: an exception already in flight
skips everything (there is no try/except in ingest_chatgpt), otherwise the
file is processed. -/
def ingestStep (hash : String → String) (now : String)
    (acc : Except String (DB × Nat)) (f : VaultFile) :
    Except String (DB × Nat) :=
  match acc with
  | Except.error e => Except.error e
  | Except.ok (db1, n) => ingestFile hash now db1 n f

/-- ingest_chatgpt of build_index.py over the files found under
vault/chatgpt: each file is processed in turn; an exception raised while
parsing a file propagates out of the loop, so later files are not reached
and the commit at the end of the function never runs. -/
def ingest_chatgpt (hash : String → String) (now : String)
    (files : List VaultFile) (db : DB) : Except String (DB × Nat) :=
  files.foldl (ingestStep hash now) (Except.ok (db, 0))

/-! ### Concrete states used by the examples -/

/-- A stand-in digest for concrete runs: the identity function, which is
deterministic and collision-free on every input used below, the two
properties of hashlib.sha256 the store relies on. -/
def idHash : String → String := fun s => s

/-- The idf assignment valid on corpora where at least half of the rows
match every phrase of the query: the clamp of the SQLite bm25
implementation makes the factor exactly 1/1000000 there. -/
def clampIdf : Nat → Nat → ℚ := fun _ _ => 1 / 1000000

/-- The two-document corpus of the ranking example of the spec: a.json
with one occurrence of quick, b.json with two, both four tokens long. -/
def exampleDb : DB :=
  upsert_doc idHash "2025-01-02T00:00:00+00:00" "chatgpt" "b.json" none none
    "the quick quick fox"
    (upsert_doc idHash "2025-01-01T00:00:00+00:00" "chatgpt" "a.json" none none
      "the quick brown fox" DB.empty)

/-- A corpus with two identically scoring documents whose ingestion times
differ: p1.md was ingested a year before p2.md. -/
def tieDb : DB :=
  upsert_doc idHash "2025-01-02T00:00:00+00:00" "chatgpt" "p2.md" none none
    "same words here"
    (upsert_doc idHash "2024-01-01T00:00:00+00:00" "chatgpt" "p1.md" none none
      "same words here" DB.empty)

/-- The older of the two tied documents, as stored. -/
def tieDoc1 : Doc :=
  ⟨1, "chatgpt", "p1.md", none, none, "same words here", "same words here",
    "2024-01-01T00:00:00+00:00"⟩

/-- The newer of the two tied documents, as stored. -/
def tieDoc2 : Doc :=
  ⟨2, "chatgpt", "p2.md", none, none, "same words here", "same words here",
    "2025-01-02T00:00:00+00:00"⟩

/-- A conversations export file whose parse raises. -/
def badFile : VaultFile :=
  VaultFile.convJson "vault/chatgpt/conversations.json"
    (Except.error "malformed conversations export")

/-- A conversations export file that parses to one conversation. -/
def goodFile : VaultFile :=
  VaultFile.convJson "vault/chatgpt/conversations-good.json"
    (Except.ok [⟨"Good conversation", none, "hello world"⟩])

/-- A conversations export file yielding two conversations with distinct
titles but identical content. -/
def dupConvFile : VaultFile :=
  VaultFile.convJson "vault/chatgpt/conversations.json"
    (Except.ok [⟨"First title", none, "shared body"⟩,
                ⟨"Second title", none, "shared body"⟩])

/-- A one-document store used to exercise the update path. -/
def c3Db : DB :=
  upsert_doc idHash "2025-01-01T00:00:00+00:00" "chatgpt" "n.md" none none
    "old content" DB.empty

/-- A one-op ingestion history. -/
def c1ops : List Op :=
  [⟨"2025-01-01T00:00:00+00:00", "chatgpt", "a.json", none, none,
    "hello world"⟩]

/-- The store produced by ingesting dupConvFile into an empty store: one
record, carrying the title of the first conversation and the shared
content. -/
def c9DbOut : DB :=
  ⟨[⟨1, "chatgpt", "vault/chatgpt/conversations.json", some "First title",
      none, "shared body", "shared body", "2025-04-01T00:00:00+00:00"⟩],
   [⟨1, some "First title", "shared body", "chatgpt",
      "vault/chatgpt/conversations.json"⟩], 2⟩

/-- Two conversations with distinct contents from one export file. -/
def c9ds : List RawDoc := [⟨"T1", none, "c1"⟩, ⟨"T2", none, "c2"⟩]

/-- The result row of b.json for the query quick. -/
def quickRowB : List (String × String) :=
  [("source", "chatgpt"), ("path", "b.json"), ("title", ""),
   ("snippet", "the [quick] [quick] fox")]

/-- The result row of a.json for the query quick. -/
def quickRowA : List (String × String) :=
  [("source", "chatgpt"), ("path", "a.json"), ("title", ""),
   ("snippet", "the [quick] brown fox")]

/-- The store produced by ingesting goodFile into an empty store. -/
def c8GoodDb : DB :=
  ⟨[⟨1, "chatgpt", "vault/chatgpt/conversations-good.json",
      some "Good conversation", none, "hello world", "hello world",
      "2025-03-01T00:00:00+00:00"⟩],
   [⟨1, some "Good conversation", "hello world", "chatgpt",
      "vault/chatgpt/conversations-good.json"⟩], 2⟩

/-- Well-formedness of a database state, as SQLite maintains it for this
schema: every id is below the next free rowid, ids are unique (INTEGER
PRIMARY KEY), every stored sha256 is the digest of the stored content,
at most one live row per (source, path), and the docs_fts table holds
exactly the rows the triggers derive from docs. -/
structure WF (hash : String → String) (db : DB) : Prop where
  idLt : ∀ d ∈ db.docs, d.id < db.nextId
  idNodup : (db.docs.map Doc.id).Nodup
  shaOk : ∀ d ∈ db.docs, d.sha256 = hash d.content
  keyUnique : ∀ d1 ∈ db.docs, ∀ d2 ∈ db.docs,
    d1.source = d2.source → d1.path = d2.path → d1 = d2
  ftsSync : db.fts.Perm (db.docs.map Doc.toFtsRow)

attribute [local semireducible] Rat.mul Rat.inv Rat.add Rat.sub Rat.ofScientific

deriving instance DecidableEq for Except

/-! ### Generic list lemmas -/

/-- find? over an append skips a prefix without a match. -/
theorem find?_append_of_none {α : Type} {p : α → Bool} {l1 : List α}
    (l2 : List α) (h : l1.find? p = none) :
    (l1 ++ l2).find? p = l2.find? p := by
  rw [List.find?_append, h, Option.none_or]

/-- Mapping a guarded rewrite over a list none of whose elements satisfy
the guard changes nothing. -/
theorem map_if_of_none {α : Type} {q : α → Bool} (g : α → α) {l : List α}
    (h : ∀ x ∈ l, q x = false) :
    l.map (fun x => if q x then g x else x) = l := by
  induction l with
  | nil => rfl
  | cons a t ih =>
    simp only [List.map_cons]
    rw [if_neg (by simp [h a (List.mem_cons_self a t)]),
      ih (fun x hx => h x (List.mem_cons_of_mem a hx))]

/-- Filtering by a guard no element satisfies empties the list. -/
theorem filter_of_none {α : Type} {q : α → Bool} {l : List α}
    (h : ∀ x ∈ l, q x = false) : l.filter q = [] := by
  induction l with
  | nil => rfl
  | cons a t ih =>
    rw [List.filter_cons, if_neg (by simp [h a (List.mem_cons_self a t)])]
    exact ih (fun x hx => h x (List.mem_cons_of_mem a hx))

/-- Membership in an ordered insertion. -/
theorem mem_orderedInsertB {α : Type} {le : α → α → Bool} {a x : α}
    {l : List α} : x ∈ orderedInsertB le a l ↔ x = a ∨ x ∈ l := by
  induction l with
  | nil => simp [orderedInsertB]
  | cons b t ih =>
    by_cases h : le a b = true
    · simp [orderedInsertB, h]
    · simp only [orderedInsertB, if_neg h, List.mem_cons, ih]
      tauto

/-- Ordered insertion permutes cons. -/
theorem orderedInsertB_perm {α : Type} (le : α → α → Bool) (a : α)
    (l : List α) : (orderedInsertB le a l).Perm (a :: l) := by
  induction l with
  | nil => exact List.Perm.refl _
  | cons b t ih =>
    by_cases h : le a b = true
    · simp [orderedInsertB, h]
    · rw [orderedInsertB, if_neg h]
      exact (List.Perm.cons b ih).trans (List.Perm.swap a b t)

/-- Insertion sort permutes its input. -/
theorem insertionSortB_perm {α : Type} (le : α → α → Bool) (l : List α) :
    (insertionSortB le l).Perm l := by
  induction l with
  | nil => exact List.Perm.refl _
  | cons a t ih =>
    exact (orderedInsertB_perm le a (insertionSortB le t)).trans
      (List.Perm.cons a ih)

/-- Ordered insertion preserves sortedness, given a total transitive
comparison. -/
theorem orderedInsertB_pairwise {α : Type} {le : α → α → Bool}
    (htot : ∀ a b, le a b = true ∨ le b a = true)
    (htrans : ∀ a b c, le a b = true → le b c = true → le a c = true)
    (a : α) {l : List α} (h : l.Pairwise (fun x y => le x y = true)) :
    (orderedInsertB le a l).Pairwise (fun x y => le x y = true) := by
  induction l with
  | nil => simp [orderedInsertB]
  | cons b t ih =>
    rcases List.pairwise_cons.mp h with ⟨hb, ht⟩
    by_cases hab : le a b = true
    · rw [orderedInsertB, if_pos hab]
      refine List.pairwise_cons.mpr ⟨?_, h⟩
      intro x hx
      rcases List.mem_cons.mp hx with rfl | hx
      · exact hab
      · exact htrans a b x hab (hb x hx)
    · rw [orderedInsertB, if_neg hab]
      refine List.pairwise_cons.mpr ⟨?_, ih ht⟩
      intro x hx
      rcases mem_orderedInsertB.mp hx with hxa | hx
      · rw [hxa]
        rcases htot a b with hc | hc
        · exact absurd hc hab
        · exact hc
      · exact hb x hx

/-- Insertion sort sorts, given a total transitive comparison. -/
theorem insertionSortB_pairwise {α : Type} {le : α → α → Bool}
    (htot : ∀ a b, le a b = true ∨ le b a = true)
    (htrans : ∀ a b c, le a b = true → le b c = true → le a c = true)
    (l : List α) :
    (insertionSortB le l).Pairwise (fun x y => le x y = true) := by
  induction l with
  | nil => simp [insertionSortB]
  | cons a t ih => exact orderedInsertB_pairwise htot htrans a ih

/-! ### Key and find? helper lemmas -/

/-- A row matched by the WHERE clause carries the key. -/
theorem keyMatches_eq {s p : String} {d : Doc} (h : keyMatches s p d = true) :
    d.source = s ∧ d.path = p := by
  simpa [keyMatches] using h

/-- The key itself is matched. -/
theorem keyMatches_self (s p : String) (d : Doc) (hs : d.source = s)
    (hp : d.path = p) : keyMatches s p d = true := by
  simp [keyMatches, hs, hp]

/-- When the SELECT of upsert_doc finds nothing, no live row carries the
key. -/
theorem find?_none_key {s p : String} {l : List Doc}
    (h : l.find? (keyMatches s p) = none) :
    ∀ d ∈ l, ¬(d.source = s ∧ d.path = p) := by
  intro d hd hk
  exact absurd (keyMatches_self s p d hk.1 hk.2)
    (by simpa using List.find?_eq_none.mp h d hd)

/-! ### Preservation of well-formedness by upsert_doc -/

/-- The empty database is well formed. -/
theorem wf_empty (hash : String → String) : WF hash DB.empty := by
  refine ⟨?_, ?_, ?_, ?_, ?_⟩ <;> simp [DB.empty]
/-- updWith never changes the surrogate id. -/
theorem updWith_id (t ca : Option String) (c sha now : String) (i : Nat)
    (d : Doc) : (updWith t ca c sha now i d).id = d.id := by
  unfold updWith
  by_cases h : (d.id == i) = true <;> simp [h]

/-- updWith never changes the key. -/
theorem updWith_key (t ca : Option String) (c sha now : String) (i : Nat)
    (d : Doc) : (updWith t ca c sha now i d).source = d.source ∧
      (updWith t ca c sha now i d).path = d.path := by
  unfold updWith
  by_cases h : (d.id == i) = true <;> simp [h]

/-- Updating rows whose id does not occur changes nothing. -/
theorem map_updWith_of_none (t ca : Option String) (c sha now : String)
    (i : Nat) {l : List Doc} (h : ∀ x ∈ l, x.id ≠ i) :
    l.map (updWith t ca c sha now i) = l := by
  induction l with
  | nil => rfl
  | cons a l2 ih =>
    simp only [List.map_cons]
    rw [show updWith t ca c sha now i a = a by
        simp [updWith, h a (List.mem_cons_self a l2)],
      ih (fun x hx => h x (List.mem_cons_of_mem a hx))]

/-- The updated row. -/
theorem updWith_hit (t ca : Option String) (c sha now : String) (d : Doc) :
    updWith t ca c sha now d.id d =
      { d with title := t, created_at := ca, content := c, sha256 := sha,
               ingested_at := now } := by
  simp [updWith]

/-- upsert_doc preserves well-formedness: this is the heart of the
store/index consistency argument, covering all three branches including
the trigger effects on docs_fts. -/
theorem wf_upsert (hash : String → String) (now s p : String)
    (t ca : Option String) (c : String) {db : DB} (hwf : WF hash db) :
    WF hash (upsert_doc hash now s p t ca c db) := by
  unfold upsert_doc
  cases hfind : db.docs.find? (keyMatches s p) with
  | none =>
    have hkey := find?_none_key hfind
    refine ⟨?_, ?_, ?_, ?_, ?_⟩
    · intro d hd
      rcases List.mem_append.mp hd with hd | hd
      · exact Nat.lt_succ_of_lt (hwf.idLt d hd)
      · simp only [List.mem_singleton] at hd
        rw [hd]
        exact Nat.lt_succ_self _
    · simp only [List.map_append, List.map_cons, List.map_nil]
      rw [List.nodup_append]
      refine ⟨hwf.idNodup, List.nodup_singleton _, ?_⟩
      intro x hx
      simp only [List.mem_singleton]
      intro heq
      rcases List.mem_map.mp hx with ⟨d, hd, hid⟩
      have hlt := hwf.idLt d hd
      omega
    · intro d hd
      rcases List.mem_append.mp hd with hd | hd
      · exact hwf.shaOk d hd
      · simp only [List.mem_singleton] at hd
        rw [hd]
    · intro d1 hd1 d2 hd2 hsrc hpath
      rcases List.mem_append.mp hd1 with hd1 | hd1 <;>
        rcases List.mem_append.mp hd2 with hd2 | hd2
      · exact hwf.keyUnique d1 hd1 d2 hd2 hsrc hpath
      · simp only [List.mem_singleton] at hd2
        exfalso
        refine hkey d1 hd1 ?_
        rw [hd2] at hsrc hpath
        exact ⟨hsrc, hpath⟩
      · simp only [List.mem_singleton] at hd1
        exfalso
        refine hkey d2 hd2 ?_
        rw [hd1] at hsrc hpath
        exact ⟨hsrc.symm, hpath.symm⟩
      · simp only [List.mem_singleton] at hd1 hd2
        rw [hd1, hd2]
    · simp only [List.map_append, List.map_cons, List.map_nil]
      exact List.Perm.append_right _ hwf.ftsSync
  | some row =>
    by_cases hsha : (row.sha256 == hash c) = true
    · simp only [hsha, if_pos]
      exact hwf
    · simp only [hsha, Bool.false_eq_true, if_neg, not_false_iff]
      rcases keyMatches_eq (List.find?_some hfind) with ⟨hrs, hrp⟩
      have hmem := List.mem_of_find?_eq_some hfind
      rcases List.append_of_mem hmem with ⟨l1, l2, hdocs⟩
      have hnodup := hwf.idNodup
      rw [hdocs] at hnodup
      simp only [List.map_append, List.map_cons] at hnodup
      have hnodup2 := (List.nodup_middle).mp hnodup
      have hnotmem : row.id ∉ (l1.map Doc.id ++ l2.map Doc.id) :=
        (List.nodup_cons.mp hnodup2).1
      have hl1 : ∀ x ∈ l1, x.id ≠ row.id := by
        intro x hx heq
        exact hnotmem (List.mem_append.mpr (Or.inl
          (heq ▸ List.mem_map_of_mem Doc.id hx)))
      have hl2 : ∀ x ∈ l2, x.id ≠ row.id := by
        intro x hx heq
        exact hnotmem (List.mem_append.mpr (Or.inr
          (heq ▸ List.mem_map_of_mem Doc.id hx)))
      refine ⟨?_, ?_, ?_, ?_, ?_⟩
      · intro d hd
        rcases List.mem_map.mp hd with ⟨x, hx, hupd⟩
        have hdx : d.id = x.id := by
          rw [← hupd]
          exact updWith_id t ca c (hash c) now row.id x
        rw [hdx]
        exact hwf.idLt x hx
      · have hmapid : (db.docs.map
            (updWith t ca c (hash c) now row.id)).map Doc.id =
            db.docs.map Doc.id := by
          rw [List.map_map]
          refine List.map_congr_left ?_
          intro x _
          exact updWith_id t ca c (hash c) now row.id x
        rw [hmapid]
        exact hwf.idNodup
      · intro d hd
        rcases List.mem_map.mp hd with ⟨x, hx, hupd⟩
        rw [← hupd]
        unfold updWith
        by_cases hid : (x.id == row.id) = true
        · simp [hid]
        · simp only [hid, Bool.false_eq_true, if_neg, not_false_iff]
          exact hwf.shaOk x hx
      · intro d1 hd1 d2 hd2 hsrc hpath
        rcases List.mem_map.mp hd1 with ⟨x1, hx1, hu1⟩
        rcases List.mem_map.mp hd2 with ⟨x2, hx2, hu2⟩
        have h1 := updWith_key t ca c (hash c) now row.id x1
        have h2 := updWith_key t ca c (hash c) now row.id x2
        rw [← hu1, ← hu2]
        have hx12 : x1 = x2 := by
          refine hwf.keyUnique x1 hx1 x2 hx2 ?_ ?_
          · rw [← h1.1, ← h2.1, hu1, hu2]
            exact hsrc
          · rw [← h1.2, ← h2.2, hu1, hu2]
            exact hpath
        rw [hx12]
      · have hfilter : (db.fts.filter (fun r => r.rowid != row.id)).Perm
            ((db.docs.filter (fun d => d.id != row.id)).map Doc.toFtsRow) := by
          refine (List.Perm.filter _ hwf.ftsSync).trans ?_
          rw [List.filter_map]
          exact List.Perm.refl _
        have hfeq : db.docs.filter (fun d => d.id != row.id) = l1 ++ l2 := by
          rw [hdocs, List.filter_append, List.filter_cons]
          simp only [bne_self_eq_false, Bool.false_eq_true, if_neg,
            not_false_iff]
          rw [List.filter_eq_self.mpr (fun x hx => by
              simpa using hl1 x hx),
            List.filter_eq_self.mpr (fun x hx => by
              simpa using hl2 x hx)]
        have hmapupd : db.docs.map (updWith t ca c (hash c) now row.id) =
            l1 ++ updWith t ca c (hash c) now row.id row :: l2 := by
          rw [hdocs, List.map_append, List.map_cons,
            map_updWith_of_none t ca c (hash c) now row.id hl1,
            map_updWith_of_none t ca c (hash c) now row.id hl2]
        have hnew : (⟨row.id, t, c, s, p⟩ : FtsRow) =
            Doc.toFtsRow (updWith t ca c (hash c) now row.id row) := by
          rw [updWith_hit]
          simp [Doc.toFtsRow, hrs, hrp]
        have hfilter2 : (db.fts.filter (fun r => r.rowid != row.id)).Perm
            ((l1 ++ l2).map Doc.toFtsRow) := by
          rw [← hfeq]
          exact hfilter
        rw [hmapupd, List.map_append, List.map_cons]
        refine (List.Perm.append_right _ hfilter2).trans ?_
        refine (List.perm_append_singleton _ _).trans ?_
        rw [hnew, List.map_append]
        exact List.perm_middle.symm

/-- Every sequence of upserts from a well-formed state stays well
formed. -/
theorem wf_applyOps (hash : String → String) (ops : List Op) {db : DB}
    (hwf : WF hash db) : WF hash (applyOps hash db ops) := by
  induction ops generalizing db with
  | nil => exact hwf
  | cons op rest ih =>
    exact ih (wf_upsert hash op.now op.source op.path op.title op.created_at
      op.content hwf)

/-! ### Search pipeline helper lemmas -/

/-- Unfolding search on a query that parses. -/
theorem searchModel_ok {idfF : Nat → Nat → ℚ} {db : DB} {q : String}
    {l : Nat} {ps : List (List String)} (h : parseQuery q = Except.ok ps) :
    searchModel idfF db q l =
      Except.ok (searchCore (phraseIdfs idfF db ps) db ps l) := by
  unfold searchModel
  rw [h]

/-- Unfolding search on a query that fails to parse. -/
theorem searchModel_error {idfF : Nat → Nat → ℚ} {db : DB} {q : String}
    {l : Nat} {e : String} (h : parseQuery q = Except.error e) :
    searchModel idfF db q l = Except.error e := by
  unfold searchModel
  rw [h]

/-- Every output row of the query body comes from a matching joined
pair. -/
theorem mem_searchCore {idfs : List ℚ} {db : DB} {ps : List (List String)}
    {l : Nat} {row : List (String × String)}
    (h : row ∈ searchCore idfs db ps l) :
    ∃ rd, rd ∈ searchMatches db ps ∧ row = resultRow ps rd := by
  unfold searchCore at h
  rcases List.mem_map.mp h with ⟨rd, hrd, heq⟩
  have hsorted : rd ∈ insertionSortB (rankLe idfs db ps)
      (searchMatches db ps) :=
    List.Sublist.mem hrd (List.take_sublist _ _)
  exact ⟨rd, (insertionSortB_perm _ _).mem_iff.mp hsorted, heq.symm⟩

/-- What membership in the joined match list means. -/
theorem mem_searchMatches {db : DB} {ps : List (List String)}
    {rd : FtsRow × Doc} (h : rd ∈ searchMatches db ps) :
    rd.1 ∈ db.fts ∧ matchesQuery rd.1 ps = true ∧ rd.2 ∈ db.docs ∧
      rd.2.id = rd.1.rowid := by
  unfold searchMatches at h
  rcases List.mem_filterMap.mp h with ⟨r, hr, hmap⟩
  rcases List.mem_filter.mp hr with ⟨hrf, hrm⟩
  cases hd : db.docs.find? (fun d => d.id == r.rowid) with
  | none =>
    rw [hd] at hmap
    simp at hmap
  | some d =>
    rw [hd] at hmap
    have hmap2 : (r, d) = rd := by
      simpa using hmap
    have hdm := List.mem_of_find?_eq_some hd
    have hdi : (d.id == r.rowid) = true :=
      @List.find?_some _ (fun dd => dd.id == r.rowid) d db.docs hd
    rw [← hmap2]
    exact ⟨hrf, hrm, hdm, by simpa using hdi⟩

/-- A one-token phrase occurs in a token list exactly when the token is a
member. -/
theorem phraseIn_singleton {a : String} {l : List String} :
    phraseIn [a] l = true ↔ a ∈ l := by
  induction l with
  | nil => simp [phraseIn]
  | cons h t ih =>
    rw [phraseIn]
    simp only [phraseAt, Bool.or_eq_true, ih, List.mem_cons]
    constructor
    · intro hc
      rcases hc with hc | hc
      · left
        have := (Bool.and_eq_true _ _).mp hc
        exact (beq_iff_eq).mp this.1
      · right
        exact hc
    · intro hc
      rcases hc with hc | hc
      · left
        rw [hc]
        simp [phraseAt]
      · right
        exact hc

/-- The SELECT list always yields the four keys of run.py, in order. -/
theorem resultRow_keys (ps : List (List String)) (rd : FtsRow × Doc) :
    (resultRow ps rd).map Prod.fst = ["source", "path", "title", "snippet"] :=
  rfl

/-- The title entry of a result row is the coalesced title. -/
theorem resultRow_title (ps : List (List String)) (rd : FtsRow × Doc) :
    List.lookup "title" (resultRow ps rd) = some (rd.2.title.getD "") := rfl

/-! ### Branch equations for upsert_doc -/

/-- The INSERT branch. -/
theorem upsert_insert (hash : String → String) (now s p : String)
    (t ca : Option String) (c : String) {db : DB}
    (hfind : db.docs.find? (keyMatches s p) = none) :
    upsert_doc hash now s p t ca c db =
      { docs := db.docs ++ [⟨db.nextId, s, p, t, ca, c, hash c, now⟩],
        fts := db.fts ++ [⟨db.nextId, t, c, s, p⟩],
        nextId := db.nextId + 1 } := by
  unfold upsert_doc
  rw [hfind]

/-- The early-return branch. -/
theorem upsert_unchanged (hash : String → String) (now s p : String)
    (t ca : Option String) (c : String) {db : DB} {row : Doc}
    (hfind : db.docs.find? (keyMatches s p) = some row)
    (hsha : (row.sha256 == hash c) = true) :
    upsert_doc hash now s p t ca c db = db := by
  unfold upsert_doc
  rw [hfind]
  simp [hsha]

/-- The UPDATE branch. -/
theorem upsert_update (hash : String → String) (now s p : String)
    (t ca : Option String) (c : String) {db : DB} {row : Doc}
    (hfind : db.docs.find? (keyMatches s p) = some row)
    (hsha : (row.sha256 == hash c) = false) :
    upsert_doc hash now s p t ca c db =
      { db with
        docs := db.docs.map (updWith t ca c (hash c) now row.id),
        fts := db.fts.filter (fun r => r.rowid != row.id) ++
          [⟨row.id, t, c, s, p⟩] } := by
  unfold upsert_doc
  rw [hfind]
  simp [hsha]

/-- The outcome of the INSERT branch. -/
theorem upsertOutcome_created (hash : String → String) (s p c : String)
    {db : DB} (hfind : db.docs.find? (keyMatches s p) = none) :
    upsertOutcome hash s p c db = UpsertResult.created := by
  unfold upsertOutcome
  rw [hfind]

/-- The outcome of the early-return branch. -/
theorem upsertOutcome_unchanged (hash : String → String) (s p c : String)
    {db : DB} {row : Doc}
    (hfind : db.docs.find? (keyMatches s p) = some row)
    (hsha : (row.sha256 == hash c) = true) :
    upsertOutcome hash s p c db = UpsertResult.unchanged := by
  unfold upsertOutcome
  rw [hfind]
  simp [hsha]

/-- The outcome of the UPDATE branch. -/
theorem upsertOutcome_updated (hash : String → String) (s p c : String)
    {db : DB} {row : Doc}
    (hfind : db.docs.find? (keyMatches s p) = some row)
    (hsha : (row.sha256 == hash c) = false) :
    upsertOutcome hash s p c db = UpsertResult.updated := by
  unfold upsertOutcome
  rw [hfind]
  simp [hsha]

/-- find? after an insert at a fresh key finds the inserted row. -/
theorem find?_after_insert (hash : String → String) (now s p : String)
    (t ca : Option String) (c : String) {db : DB}
    (hfind : db.docs.find? (keyMatches s p) = none) :
    (upsert_doc hash now s p t ca c db).docs.find? (keyMatches s p) =
      some ⟨db.nextId, s, p, t, ca, c, hash c, now⟩ := by
  rw [upsert_insert hash now s p t ca c hfind]
  show (db.docs ++ [(⟨db.nextId, s, p, t, ca, c, hash c, now⟩ : Doc)]).find?
    (keyMatches s p) = _
  rw [find?_append_of_none _ hfind]
  exact List.find?_cons_of_pos _ (keyMatches_self s p _ rfl rfl)

/-! ### Claim theorems -/

/-- C1: after any sequence of upsert operations from an empty store, the
docs_fts index holds exactly the projections of the live documents (no
stale, no missing entries), and every row a query can match is the
current projection of a live document. -/
theorem c1_store_index_consistency (hash : String → String) (ops : List Op) :
    ((applyOps hash DB.empty ops).fts).Perm
      ((applyOps hash DB.empty ops).docs.map Doc.toFtsRow) ∧
    ∀ ps : List (List String),
      ∀ rd ∈ searchMatches (applyOps hash DB.empty ops) ps,
        rd.2 ∈ (applyOps hash DB.empty ops).docs ∧
          rd.1 = Doc.toFtsRow rd.2 := by
  have hwf := wf_applyOps hash ops (wf_empty hash)
  refine ⟨hwf.ftsSync, ?_⟩
  intro ps rd hrd
  rcases mem_searchMatches hrd with ⟨hfts, hm, hdocs, hid⟩
  refine ⟨hdocs, ?_⟩
  rcases List.mem_map.mp (hwf.ftsSync.mem_iff.mp hfts) with ⟨x, hx, hxe⟩
  have hxid : x.id = rd.1.rowid := by
    rw [← hxe]
    rfl
  have hxd : x = rd.2 :=
    List.inj_on_of_nodup_map hwf.idNodup hx hdocs (by rw [hxid, hid])
  rw [← hxe, hxd]

/-- C1 witness: a concrete one-op history and one concrete matched row. -/
theorem c1_witness :
    ((⟨1, "chatgpt", "a.json", none, none, "hello world", "hello world",
        "2025-01-01T00:00:00+00:00"⟩ : Doc) ∈
      (applyOps idHash DB.empty c1ops).docs) ∧
    ((⟨1, none, "hello world", "chatgpt", "a.json"⟩ : FtsRow) =
      Doc.toFtsRow ⟨1, "chatgpt", "a.json", none, none, "hello world",
        "hello world", "2025-01-01T00:00:00+00:00"⟩) :=
  (c1_store_index_consistency idHash c1ops).2 [["hello"]]
    (⟨1, none, "hello world", "chatgpt", "a.json"⟩,
     ⟨1, "chatgpt", "a.json", none, none, "hello world", "hello world",
       "2025-01-01T00:00:00+00:00"⟩) (by decide)

/-- C2: upserting the same document twice is idempotent: the outcomes are
created then unchanged, and the second call leaves the store (record,
ingested_at and index) exactly as after the first, whatever timestamp the
clock produces on the second call. -/
theorem c2_upsert_idempotent (hash : String → String)
    (now1 now2 s p : String) (t ca : Option String) (c : String) {db : DB}
    (hfind : db.docs.find? (keyMatches s p) = none) :
    upsertOutcome hash s p c db = UpsertResult.created ∧
    upsertOutcome hash s p c (upsert_doc hash now1 s p t ca c db) =
      UpsertResult.unchanged ∧
    upsert_doc hash now2 s p t ca c (upsert_doc hash now1 s p t ca c db) =
      upsert_doc hash now1 s p t ca c db := by
  have hfind2 := find?_after_insert hash now1 s p t ca c hfind
  refine ⟨upsertOutcome_created hash s p c hfind, ?_, ?_⟩
  · exact upsertOutcome_unchanged hash s p c hfind2 (by simp)
  · exact upsert_unchanged hash now2 s p t ca c hfind2 (by simp)

/-- C2 witness: the idempotence pair at a concrete document. -/
theorem c2_witness :
    upsertOutcome idHash "chatgpt" "w.md" "witness body" DB.empty =
      UpsertResult.created ∧
    upsertOutcome idHash "chatgpt" "w.md" "witness body"
      (upsert_doc idHash "2025-01-01T00:00:00+00:00" "chatgpt" "w.md" none
        none "witness body" DB.empty) = UpsertResult.unchanged ∧
    upsert_doc idHash "2025-06-01T00:00:00+00:00" "chatgpt" "w.md" none none
      "witness body"
      (upsert_doc idHash "2025-01-01T00:00:00+00:00" "chatgpt" "w.md" none
        none "witness body" DB.empty) =
      upsert_doc idHash "2025-01-01T00:00:00+00:00" "chatgpt" "w.md" none
        none "witness body" DB.empty :=
  c2_upsert_idempotent idHash "2025-01-01T00:00:00+00:00"
    "2025-06-01T00:00:00+00:00" "chatgpt" "w.md" none none "witness body"
    (by decide)

/-- C7: after every upsert history from the empty store at most one live
document exists per (source, path), while ingesting the same content under
two different paths leaves two separate records with distinct surrogate
ids. -/
theorem c7_key_uniqueness (hash : String → String) (ops : List Op) :
    (∀ d1 ∈ (applyOps hash DB.empty ops).docs,
      ∀ d2 ∈ (applyOps hash DB.empty ops).docs,
        d1.source = d2.source → d1.path = d2.path → d1 = d2) ∧
    (∀ now1 now2 src p1 p2 c : String, ∀ t1 t2 ca1 ca2 : Option String,
      ∀ db : DB, p1 ≠ p2 →
        db.docs.find? (keyMatches src p1) = none →
        db.docs.find? (keyMatches src p2) = none →
        ∃ d1 d2 : Doc,
          d1 ∈ (upsert_doc hash now2 src p2 t2 ca2 c
            (upsert_doc hash now1 src p1 t1 ca1 c db)).docs ∧
          d2 ∈ (upsert_doc hash now2 src p2 t2 ca2 c
            (upsert_doc hash now1 src p1 t1 ca1 c db)).docs ∧
          d1.source = src ∧ d1.path = p1 ∧ d1.content = c ∧
          d2.source = src ∧ d2.path = p2 ∧ d2.content = c ∧
          d1.id ≠ d2.id) := by
  refine ⟨(wf_applyOps hash ops (wf_empty hash)).keyUnique, ?_⟩
  intro now1 now2 src p1 p2 c t1 t2 ca1 ca2 db hp hf1 hf2
  have h1 := upsert_insert hash now1 src p1 t1 ca1 c hf1
  have hf2b : (upsert_doc hash now1 src p1 t1 ca1 c db).docs.find?
      (keyMatches src p2) = none := by
    rw [h1]
    show (db.docs ++
      [(⟨db.nextId, src, p1, t1, ca1, c, hash c, now1⟩ : Doc)]).find?
      (keyMatches src p2) = none
    rw [find?_append_of_none _ hf2]
    have : keyMatches src p2 ⟨db.nextId, src, p1, t1, ca1, c, hash c, now1⟩ =
        false := by
      simp [keyMatches, hp]
    simp [List.find?, this]
  have h2 := upsert_insert hash now2 src p2 t2 ca2 c hf2b
  refine ⟨⟨db.nextId, src, p1, t1, ca1, c, hash c, now1⟩,
    ⟨(upsert_doc hash now1 src p1 t1 ca1 c db).nextId, src, p2, t2, ca2, c,
      hash c, now2⟩, ?_, ?_, rfl, rfl, rfl, rfl, rfl, rfl, ?_⟩
  · rw [h2]
    show _ ∈ (upsert_doc hash now1 src p1 t1 ca1 c db).docs ++ [_]
    refine List.mem_append.mpr (Or.inl ?_)
    rw [h1]
    show _ ∈ db.docs ++ [(⟨db.nextId, src, p1, t1, ca1, c, hash c,
      now1⟩ : Doc)]
    exact List.mem_append.mpr (Or.inr (List.mem_singleton.mpr rfl))
  · rw [h2]
    show _ ∈ (upsert_doc hash now1 src p1 t1 ca1 c db).docs ++
      [(⟨(upsert_doc hash now1 src p1 t1 ca1 c db).nextId, src, p2, t2, ca2,
        c, hash c, now2⟩ : Doc)]
    exact List.mem_append.mpr (Or.inr (List.mem_singleton.mpr rfl))
  · rw [h1]
    show db.nextId ≠ db.nextId + 1
    omega

/-- C7 witness: two same-content documents at different paths from an
empty store. -/
theorem c7_witness :
    ∃ d1 d2 : Doc,
      d1 ∈ (upsert_doc idHash "2025-01-02T00:00:00+00:00" "chatgpt" "y.md"
        none none "same body"
        (upsert_doc idHash "2025-01-01T00:00:00+00:00" "chatgpt" "x.md"
          none none "same body" DB.empty)).docs ∧
      d2 ∈ (upsert_doc idHash "2025-01-02T00:00:00+00:00" "chatgpt" "y.md"
        none none "same body"
        (upsert_doc idHash "2025-01-01T00:00:00+00:00" "chatgpt" "x.md"
          none none "same body" DB.empty)).docs ∧
      d1.source = "chatgpt" ∧ d1.path = "x.md" ∧ d1.content = "same body" ∧
      d2.source = "chatgpt" ∧ d2.path = "y.md" ∧ d2.content = "same body" ∧
      d1.id ≠ d2.id :=
  (c7_key_uniqueness idHash []).2 "2025-01-01T00:00:00+00:00"
    "2025-01-02T00:00:00+00:00" "chatgpt" "x.md" "y.md" "same body"
    none none none none DB.empty (by decide) (by decide) (by decide)

/-- An exception in flight swallows the rest of the loop. -/
theorem foldl_ingestStep_error (hash : String → String) (now e : String)
    (l : List VaultFile) :
    l.foldl (ingestStep hash now) (Except.error e) = Except.error e := by
  induction l with
  | nil => rfl
  | cons f t ih => exact ih

/-- C4 (amended): for every query in the modelled conjunctive fragment of
the FTS5 grammar — whitespace-separated bare terms and double-quoted
phrases under implicit AND, each of which real FTS5 accepts with the same
meaning — search returns a result list for every store, and the empty
store yields the empty list.  The original claim fails on malformed
queries, which raise uncaught to the caller: see the counterexample. -/
theorem c4_search_graceful (idfF : Nat → Nat → ℚ) (db : DB) (q : String)
    (l : Nat) (ps : List (List String))
    (hq : parseQuery q = Except.ok ps) :
    (∃ rows, searchModel idfF db q l = Except.ok rows) ∧
    searchModel idfF DB.empty q l = Except.ok [] := by
  refine ⟨⟨_, searchModel_ok hq⟩, ?_⟩
  rw [searchModel_ok hq]
  show Except.ok (searchCore (phraseIdfs idfF DB.empty ps) DB.empty ps l) =
    Except.ok []
  unfold searchCore
  rw [show searchMatches DB.empty ps = [] from rfl]
  rw [show insertionSortB
    (rankLe (phraseIdfs idfF DB.empty ps) DB.empty ps)
    ([] : List (FtsRow × Doc)) = [] from rfl]
  rw [List.take_nil]
  rfl

/-- C4 witness: a well-formed query against the example corpus and the
empty corpus. -/
theorem c4_witness :
    (∃ rows, searchModel clampIdf exampleDb "quick" 8 = Except.ok rows) ∧
    searchModel clampIdf DB.empty "quick" 8 = Except.ok [] :=
  c4_search_graceful clampIdf exampleDb "quick" 8 [["quick"]] rfl

/-- C4 counterexample: a query with an unbalanced double quote makes
search raise the FTS5 syntax error to the caller instead of degrading to a
literal token, because run.py holds no try/except around the MATCH; the
empty query, an all-whitespace query, and the bare upper-case operator
keywords raise in the same uncaught way. -/
theorem c4_counterexample :
    searchModel clampIdf exampleDb "\"quick" 8 =
      Except.error "unterminated quoted string in query" ∧
    searchModel clampIdf exampleDb "" 8 =
      Except.error "fts5 syntax error: empty query" ∧
    searchModel clampIdf exampleDb "   " 8 =
      Except.error "fts5 syntax error: empty query" ∧
    searchModel clampIdf exampleDb "NOT" 8 =
      Except.error "fts5 syntax error: boolean operator" ∧
    searchModel clampIdf exampleDb "AND" 8 =
      Except.error "fts5 syntax error: boolean operator" ∧
    searchModel clampIdf exampleDb "OR" 8 =
      Except.error "fts5 syntax error: boolean operator" :=
  ⟨searchModel_error rfl, searchModel_error rfl, searchModel_error rfl,
   searchModel_error rfl, searchModel_error rfl, searchModel_error rfl⟩

/-- C8 (amended): an error raised while parsing one export file propagates
out of the ingestion driver: the batch is aborted at that file and no
later file is processed; there is no per-file isolation. -/
theorem c8_error_aborts_batch (hash : String → String) (now : String)
    (pre post : List VaultFile) (p e : String) (db : DB) (st : DB × Nat)
    (hpre : ingest_chatgpt hash now pre db = Except.ok st) :
    ingest_chatgpt hash now
      (pre ++ VaultFile.convJson p (Except.error e) :: post) db =
      Except.error e := by
  unfold ingest_chatgpt at hpre ⊢
  rw [List.foldl_append, hpre, List.foldl_cons]
  obtain ⟨db1, n⟩ := st
  show post.foldl (ingestStep hash now) (Except.error e) = Except.error e
  exact foldl_ingestStep_error hash now e post

/-- C8 witness: a good file followed by a bad one aborts after the bad
one. -/
theorem c8_witness :
    ingest_chatgpt idHash "2025-03-01T00:00:00+00:00"
      ([goodFile] ++ VaultFile.convJson "vault/chatgpt/conversations.json"
        (Except.error "malformed conversations export") :: []) DB.empty =
      Except.error "malformed conversations export" :=
  c8_error_aborts_batch idHash "2025-03-01T00:00:00+00:00" [goodFile] []
    "vault/chatgpt/conversations.json" "malformed conversations export"
    DB.empty (c8GoodDb, 1) (by decide)

/-- C8 counterexample: with the failing file first, the whole batch is
aborted and the parseable file after it is never ingested, refuting the
per-file isolation the claim asserts; alone, the same good file ingests
fine. -/
theorem c8_counterexample :
    ingest_chatgpt idHash "2025-03-01T00:00:00+00:00" [badFile, goodFile]
      DB.empty = Except.error "malformed conversations export" ∧
    ingest_chatgpt idHash "2025-03-01T00:00:00+00:00" [goodFile] DB.empty =
      Except.ok (c8GoodDb, 1) := by
  refine ⟨rfl, by decide⟩

/-- C10: every search result row presents a title string: the stored title
when present, the empty string when the stored title is NULL (the
COALESCE of run.py). -/
theorem c10_title_coalesced (idfF : Nat → Nat → ℚ) (db : DB) (q : String)
    (l : Nat) (ps : List (List String))
    (rows : List (List (String × String)))
    (hq : parseQuery q = Except.ok ps)
    (hr : searchModel idfF db q l = Except.ok rows) :
    ∀ row ∈ rows, ∃ d, d ∈ db.docs ∧
      List.lookup "title" row = some (d.title.getD "") ∧
      (d.title = none → List.lookup "title" row = some "") := by
  intro row hrow
  rw [searchModel_ok hq] at hr
  have hrows : searchCore (phraseIdfs idfF db ps) db ps l = rows :=
    Except.ok.inj hr
  rw [← hrows] at hrow
  rcases mem_searchCore hrow with ⟨rd, hrd, heq⟩
  rcases mem_searchMatches hrd with ⟨_, _, hdocs, _⟩
  refine ⟨rd.2, hdocs, ?_, ?_⟩
  · rw [heq, resultRow_title]
  · intro hnone
    rw [heq, resultRow_title, hnone]
    rfl

/-- C10 witness: the b.json row of the example corpus, whose stored title
is NULL and whose result title is the empty string. -/
theorem c10_witness :
    ∃ d, d ∈ exampleDb.docs ∧
      List.lookup "title" quickRowB = some (d.title.getD "") ∧
      (d.title = none → List.lookup "title" quickRowB = some "") :=
  c10_title_coalesced clampIdf exampleDb "quick" 8 [["quick"]]
    [quickRowB, quickRowA] rfl (by decide) quickRowB (by decide)

/-- The ORDER BY comparison is total. -/
theorem rankLe_total (idfs : List ℚ) (db : DB) (ps : List (List String)) :
    ∀ a b : FtsRow × Doc,
      rankLe idfs db ps a b = true ∨ rankLe idfs db ps b a = true := by
  intro a b
  unfold rankLe
  rcases le_total (bm25Value idfs db ps a.1) (bm25Value idfs db ps b.1)
    with h | h
  · exact Or.inl (decide_eq_true h)
  · exact Or.inr (decide_eq_true h)

/-- The ORDER BY comparison is transitive. -/
theorem rankLe_trans (idfs : List ℚ) (db : DB) (ps : List (List String)) :
    ∀ a b c2 : FtsRow × Doc, rankLe idfs db ps a b = true →
      rankLe idfs db ps b c2 = true → rankLe idfs db ps a c2 = true := by
  intro a b c2 hab hbc
  unfold rankLe at hab hbc ⊢
  exact decide_eq_true
    (le_trans (of_decide_eq_true hab) (of_decide_eq_true hbc))

/-- C5 (amended): every search result is the bm25-ascending ordering of
the matching rows truncated to at most limit entries, and every record
carries exactly the keys source, path, title and snippet; there is no
score field, and ties follow the scan order of the candidates, not
ingested_at — see the counterexample. -/
theorem c5_output_contract (idfF : Nat → Nat → ℚ) (db : DB) (q : String)
    (l : Nat) (ps : List (List String))
    (rows : List (List (String × String)))
    (hq : parseQuery q = Except.ok ps)
    (hr : searchModel idfF db q l = Except.ok rows) :
    rows.length ≤ l ∧
    (∀ row ∈ rows,
      row.map Prod.fst = ["source", "path", "title", "snippet"]) ∧
    rows = ((insertionSortB (rankLe (phraseIdfs idfF db ps) db ps)
      (searchMatches db ps)).take l).map (resultRow ps) ∧
    (insertionSortB (rankLe (phraseIdfs idfF db ps) db ps)
      (searchMatches db ps)).Pairwise
      (fun a b => rankLe (phraseIdfs idfF db ps) db ps a b = true) := by
  rw [searchModel_ok hq] at hr
  obtain rfl : rows = searchCore (phraseIdfs idfF db ps) db ps l :=
    (Except.ok.inj hr).symm
  refine ⟨?_, ?_, rfl, ?_⟩
  · show (((insertionSortB (rankLe (phraseIdfs idfF db ps) db ps)
      (searchMatches db ps)).take l).map (resultRow ps)).length ≤ l
    rw [List.length_map, List.length_take]
    exact min_le_left _ _
  · intro row hrow
    unfold searchCore at hrow
    rcases List.mem_map.mp hrow with ⟨rd, _, heq⟩
    rw [← heq]
    exact resultRow_keys ps rd
  · exact insertionSortB_pairwise (rankLe_total _ _ _) (rankLe_trans _ _ _) _

/-- C5 witness: the contract at the example corpus and query quick. -/
theorem c5_witness :
    ([quickRowB, quickRowA] : List (List (String × String))).length ≤ 8 ∧
    (∀ row ∈ [quickRowB, quickRowA],
      row.map Prod.fst = ["source", "path", "title", "snippet"]) ∧
    [quickRowB, quickRowA] =
      ((insertionSortB
        (rankLe (phraseIdfs clampIdf exampleDb [["quick"]]) exampleDb
          [["quick"]])
        (searchMatches exampleDb [["quick"]])).take 8).map
          (resultRow [["quick"]]) ∧
    (insertionSortB
      (rankLe (phraseIdfs clampIdf exampleDb [["quick"]]) exampleDb
        [["quick"]])
      (searchMatches exampleDb [["quick"]])).Pairwise
      (fun a b =>
        rankLe (phraseIdfs clampIdf exampleDb [["quick"]]) exampleDb
          [["quick"]] a b = true) :=
  c5_output_contract clampIdf exampleDb "quick" 8 [["quick"]]
    [quickRowB, quickRowA] rfl (by decide)

/-- C5 counterexample: two identically scoring documents come back in
scan order — the older-ingested p1.md first — refuting the claimed
ingested_at-descending tie-break, and no record carries a score key. -/
theorem c5_counterexample :
    searchModel clampIdf tieDb "same" 8 = Except.ok
      [resultRow [["same"]] (Doc.toFtsRow tieDoc1, tieDoc1),
       resultRow [["same"]] (Doc.toFtsRow tieDoc2, tieDoc2)] ∧
    tieDb.docs = [tieDoc1, tieDoc2] ∧
    tieDoc1.ingested_at = "2024-01-01T00:00:00+00:00" ∧
    tieDoc2.ingested_at = "2025-01-02T00:00:00+00:00" ∧
    "score" ∉ (resultRow [["same"]] (Doc.toFtsRow tieDoc1,
      tieDoc1)).map Prod.fst := by
  refine ⟨by decide, by decide, by decide, by decide, by decide⟩

/-- The tf part of a BM25 summand is monotone in the term frequency, for
any positive idf factor and document lengths. -/
theorem bm25_tf_mono (idf tf1 tf2 dl avg : ℚ) (hidf : 0 < idf)
    (h1 : 0 ≤ tf1) (h12 : tf1 ≤ tf2) (hdl : 0 ≤ dl) (havg : 0 < avg) :
    bm25Term idf tf1 dl avg ≤ bm25Term idf tf2 dl avg := by
  unfold bm25Term k1 bCoef
  have hx : (0:ℚ) ≤ 3/4 * dl / avg :=
    div_nonneg (by linarith) havg.le
  have hD : (0:ℚ) < 6/5 * (1 - 3/4 + 3/4 * dl / avg) := by nlinarith
  have h1p : (0:ℚ) < tf1 + 6/5 * (1 - 3/4 + 3/4 * dl / avg) := by linarith
  have h2p : (0:ℚ) < tf2 + 6/5 * (1 - 3/4 + 3/4 * dl / avg) := by linarith
  refine mul_le_mul_of_nonneg_left ?_ hidf.le
  rw [div_le_div_iff₀ h1p h2p]
  nlinarith [mul_nonneg (sub_nonneg.mpr h12) hD.le]

/-- C6: a higher term frequency never scores below a lower one at equal
document length (for the positive idf factor the SQLite clamp
guarantees), and on the two-document example of the spec the search for
quick returns both documents with b.json ranked first. -/
theorem c6_ranking_monotonic (idfF : Nat → Nat → ℚ)
    (hclamp : ∀ N n : Nat, 0 < n → N ≤ 2 * n → idfF N n = 1 / 1000000) :
    (∀ idf tf1 tf2 dl avg : ℚ, 0 < idf → 0 ≤ tf1 → tf1 ≤ tf2 → 0 ≤ dl →
      0 < avg → bm25Term idf tf1 dl avg ≤ bm25Term idf tf2 dl avg) ∧
    searchModel idfF exampleDb "quick" 8 =
      Except.ok [quickRowB, quickRowA] := by
  constructor
  · intro idf tf1 tf2 dl avg hidf h1 h12 hdl havg
    exact bm25_tf_mono idf tf1 tf2 dl avg hidf h1 h12 hdl havg
  · have hps : parseQuery "quick" = Except.ok [["quick"]] := rfl
    rw [searchModel_ok hps]
    have hidfs : phraseIdfs idfF exampleDb [["quick"]] = [idfF 2 2] := rfl
    rw [hidfs, hclamp 2 2 (by norm_num) (by norm_num)]
    decide

/-- C6 witness: monotonicity at concrete frequencies and the concrete
ranked example. -/
theorem c6_witness :
    bm25Term 1 1 4 4 ≤ bm25Term 1 2 4 4 ∧
    searchModel clampIdf exampleDb "quick" 8 =
      Except.ok [quickRowB, quickRowA] :=
  ⟨(c6_ranking_monotonic clampIdf (fun _ _ _ _ => rfl)).1 1 1 2 4 4
      (by norm_num) (by norm_num) (by norm_num) (by norm_num) (by norm_num),
   (c6_ranking_monotonic clampIdf (fun _ _ _ _ => rfl)).2⟩

/-- find? commutes with a map that does not move the predicate. -/
theorem find?_map_of_pred {α : Type} (g : α → α) (q : α → Bool)
    (hg : ∀ x, q (g x) = q x) (l : List α) :
    (l.map g).find? q = (l.find? q).map g := by
  induction l with
  | nil => rfl
  | cons a t ih =>
    simp only [List.map_cons]
    cases hqa : q a with
    | true =>
      rw [List.find?_cons_of_pos _ (by rw [hg a]; exact hqa),
        List.find?_cons_of_pos _ hqa]
      rfl
    | false =>
      rw [List.find?_cons_of_neg _ (by rw [hg a, hqa]; exact
          Bool.false_ne_true),
        List.find?_cons_of_neg _ (by rw [hqa]; exact Bool.false_ne_true)]
      exact ih

/-- The key of updWith is untouched by the update. -/
theorem keyMatches_updWith (s p : String) (t ca : Option String)
    (c sha now : String) (i : Nat) (x : Doc) :
    keyMatches s p (updWith t ca c sha now i x) = keyMatches s p x := by
  unfold keyMatches
  rw [(updWith_key t ca c sha now i x).1, (updWith_key t ca c sha now i x).2]

/-- find? after the UPDATE branch finds the rewritten row. -/
theorem find?_after_update (hash : String → String) (now s p : String)
    (t ca : Option String) (c : String) {db : DB} {d : Doc}
    (hfind : db.docs.find? (keyMatches s p) = some d)
    (hsha : (d.sha256 == hash c) = false) :
    (upsert_doc hash now s p t ca c db).docs.find? (keyMatches s p) =
      some (updWith t ca c (hash c) now d.id d) := by
  rw [upsert_update hash now s p t ca c hfind hsha]
  show (db.docs.map (updWith t ca c (hash c) now d.id)).find?
    (keyMatches s p) = _
  rw [find?_map_of_pred _ _ (keyMatches_updWith s p t ca c (hash c) now d.id),
    hfind]
  rfl

/-- C3: re-ingesting an existing key with content of a different digest
takes the UPDATE branch: the record is rewritten in place with the new
title, created_at, content, hash and timestamp under the same surrogate
id, and after the update no term outside the new title and content can
match the document. -/
theorem c3_change_detection (hash : String → String) (now s p : String)
    (t ca : Option String) (c : String) {db : DB} {d : Doc}
    (hwf : WF hash db)
    (hfind : db.docs.find? (keyMatches s p) = some d)
    (hne : hash c ≠ hash d.content) :
    upsertOutcome hash s p c db = UpsertResult.updated ∧
    (∃ d2, (upsert_doc hash now s p t ca c db).docs.find?
        (keyMatches s p) = some d2 ∧ d2.id = d.id ∧ d2.title = t ∧
      d2.created_at = ca ∧ d2.content = c ∧ d2.sha256 = hash c ∧
      d2.ingested_at = now) ∧
    (∀ term : String, term ∉ tokenize (t.getD "") → term ∉ tokenize c →
      ∀ rd ∈ searchMatches (upsert_doc hash now s p t ca c db) [[term]],
        rd.2.id ≠ d.id) := by
  have hsha : (d.sha256 == hash c) = false := by
    rw [hwf.shaOk d (List.mem_of_find?_eq_some hfind)]
    exact beq_eq_false_iff_ne.mpr (fun h => hne h.symm)
  refine ⟨upsertOutcome_updated hash s p c hfind hsha, ?_, ?_⟩
  · refine ⟨updWith t ca c (hash c) now d.id d,
      find?_after_update hash now s p t ca c hfind hsha,
      updWith_id t ca c (hash c) now d.id d, ?_, ?_, ?_, ?_, ?_⟩ <;>
      rw [updWith_hit]
  · intro term hnt hnc rd hrd heq
    have hwf2 : WF hash (upsert_doc hash now s p t ca c db) :=
      wf_upsert hash now s p t ca c hwf
    rcases mem_searchMatches hrd with ⟨hfts, hm, hdocs2, hid⟩
    rcases List.mem_map.mp (hwf2.ftsSync.mem_iff.mp hfts) with ⟨x, hx, hxe⟩
    have hd2mem : updWith t ca c (hash c) now d.id d ∈
        (upsert_doc hash now s p t ca c db).docs := by
      rw [upsert_update hash now s p t ca c hfind hsha]
      show _ ∈ db.docs.map (updWith t ca c (hash c) now d.id)
      exact List.mem_map_of_mem _ (List.mem_of_find?_eq_some hfind)
    have hxid : x.id = rd.1.rowid := by
      rw [← hxe]
      rfl
    have hxd2 : x = updWith t ca c (hash c) now d.id d := by
      refine List.inj_on_of_nodup_map hwf2.idNodup hx hd2mem ?_
      rw [updWith_id, hxid, ← hid, heq]
    have hr1 : rd.1 = Doc.toFtsRow (updWith t ca c (hash c) now d.id d) := by
      rw [← hxe, hxd2]
    have hmp : matchesPhrase rd.1 [term] = true := by
      simpa [matchesQuery] using hm
    rw [hr1] at hmp
    have hcases : phraseIn [term] (tokenize (t.getD "")) = true ∨
        phraseIn [term] (tokenize c) = true := by
      simpa [matchesPhrase, FtsRow.titleTokens, FtsRow.contentTokens,
        Doc.toFtsRow, updWith_hit] using hmp
    rcases hcases with h | h
    · exact hnt (phraseIn_singleton.mp h)
    · exact hnc (phraseIn_singleton.mp h)

/-- C3 witness: updating the single stored document and checking that its
old content stops matching. -/
theorem c3_witness :
    upsertOutcome idHash "chatgpt" "n.md" "fresh words" c3Db =
      UpsertResult.updated ∧
    (∀ rd ∈ searchMatches (upsert_doc idHash "2025-02-01T00:00:00+00:00"
        "chatgpt" "n.md" (some "New") none "fresh words" c3Db) [["old"]],
      rd.2.id ≠ (⟨1, "chatgpt", "n.md", none, none, "old content",
        "old content", "2025-01-01T00:00:00+00:00"⟩ : Doc).id) :=
  ⟨(c3_change_detection idHash "2025-02-01T00:00:00+00:00" "chatgpt" "n.md"
      (some "New") none "fresh words"
      (wf_upsert idHash "2025-01-01T00:00:00+00:00" "chatgpt" "n.md" none
        none "old content" (wf_empty idHash))
      (by decide : c3Db.docs.find? (keyMatches "chatgpt" "n.md") =
        some ⟨1, "chatgpt", "n.md", none, none, "old content",
          "old content", "2025-01-01T00:00:00+00:00"⟩)
      (by decide : idHash "fresh words" ≠ idHash "old content")).1,
   (c3_change_detection idHash "2025-02-01T00:00:00+00:00" "chatgpt" "n.md"
      (some "New") none "fresh words"
      (wf_upsert idHash "2025-01-01T00:00:00+00:00" "chatgpt" "n.md" none
        none "old content" (wf_empty idHash))
      (by decide : c3Db.docs.find? (keyMatches "chatgpt" "n.md") =
        some ⟨1, "chatgpt", "n.md", none, none, "old content",
          "old content", "2025-01-01T00:00:00+00:00"⟩)
      (by decide : idHash "fresh words" ≠
        idHash "old content")).2.2 "old" (by decide) (by decide)⟩

/-- convFold on an empty conversation list. -/
theorem convFold_nil (hash : String → String) (now p : String)
    (acc : DB × Nat) : convFold hash now p [] acc = acc := rfl

/-- convFold steps through one conversation. -/
theorem convFold_cons (hash : String → String) (now p : String)
    (r : RawDoc) (rest : List RawDoc) (db : DB) (n : Nat) :
    convFold hash now p (r :: rest) (db, n) =
      convFold hash now p rest
        (upsert_doc hash now "chatgpt" p (some r.title) r.created_at
          r.content db, n + 1) := rfl

/-- The counter of convFold counts every yielded conversation. -/
theorem convFold_snd (hash : String → String) (now p : String) :
    ∀ (ds : List RawDoc) (db : DB) (n : Nat),
      (convFold hash now p ds (db, n)).2 = n + ds.length := by
  intro ds
  induction ds with
  | nil =>
    intro db n
    simp [convFold_nil]
  | cons r rest ih =>
    intro db n
    rw [convFold_cons, ih, List.length_cons]
    omega

/-- getLastD of a nonempty list ignores the default. -/
theorem getLastD_ne_nil {α : Type} {l : List α} (h : l ≠ []) (a b : α) :
    l.getLastD a = l.getLastD b := by
  cases l with
  | nil => exact absurd rfl h
  | cons x t => rw [List.getLastD_cons, List.getLastD_cons]

/-- getLastD over a map of a nonempty list is the image of its last
element. -/
theorem getLastD_map {α β : Type} (f : α → β) (l : List α) (h : l ≠ [])
    (b : β) : (l.map f).getLastD b = f (l.getLast h) := by
  induction l generalizing b with
  | nil => exact absurd rfl h
  | cons x t ih =>
    cases t with
    | nil => rfl
    | cons y t2 =>
      rw [List.map_cons, List.getLastD_cons,
        List.getLast_cons (by simp : (y :: t2) ≠ [])]
      exact ih (by simp) (f x)

/-- With a well-formed store, the row find? locates is the only live row
at its key. -/
theorem filter_key_singleton (hash : String → String) {db : DB} {d : Doc}
    {s p : String} (hwf : WF hash db)
    (hfind : db.docs.find? (keyMatches s p) = some d) :
    db.docs.filter (keyMatches s p) = [d] := by
  have hdmem := List.mem_of_find?_eq_some hfind
  have hdkey : keyMatches s p d = true := List.find?_some hfind
  have hall : ∀ x ∈ db.docs.filter (keyMatches s p), x = d := by
    intro x hx
    rcases List.mem_filter.mp hx with ⟨hxm, hxk⟩
    rcases keyMatches_eq hxk with ⟨hxs, hxp⟩
    rcases keyMatches_eq hdkey with ⟨hds, hdp⟩
    exact hwf.keyUnique x hxm d hdmem (hxs.trans hds.symm)
      (hxp.trans hdp.symm)
  have hdin : d ∈ db.docs.filter (keyMatches s p) :=
    List.mem_filter.mpr ⟨hdmem, hdkey⟩
  have hnodup : (db.docs.filter (keyMatches s p)).Nodup :=
    (List.Nodup.of_map Doc.id hwf.idNodup).filter _
  cases hfl : db.docs.filter (keyMatches s p) with
  | nil =>
    rw [hfl] at hdin
    exact absurd hdin (List.not_mem_nil d)
  | cons x xs =>
    rw [hfl] at hall hnodup
    have hx : x = d := hall x (List.mem_cons_self x xs)
    have hxs : xs = [] := by
      cases hxs2 : xs with
      | nil => rfl
      | cons y ys =>
        exfalso
        have hy : y = d := hall y (by
          rw [hxs2]
          exact List.mem_cons_of_mem x (List.mem_cons_self y ys))
        have hnm := (List.nodup_cons.mp hnodup).1
        rw [hxs2] at hnm
        exact hnm (by rw [hx, ← hy]; exact List.mem_cons_self y ys)
    rw [hx, hxs]

/-- Folding the conversations of one file over a store that already holds
the key: the key always holds exactly one row with the digest of the last
content (or the old digest if no conversation is yielded), and when
consecutive digests differ every field of the row comes from the last
conversation. -/
theorem convFold_key (hash : String → String) (now p : String) :
    ∀ (ds : List RawDoc) (db : DB) (n : Nat) (d : Doc),
    WF hash db → db.docs.find? (keyMatches "chatgpt" p) = some d →
    ∃ d2, (convFold hash now p ds (db, n)).1.docs.find?
        (keyMatches "chatgpt" p) = some d2 ∧
      WF hash (convFold hash now p ds (db, n)).1 ∧
      d2.id = d.id ∧
      d2.sha256 = (ds.map (fun r => hash r.content)).getLastD d.sha256 ∧
      (List.Chain' (fun a b => a ≠ b)
          (d.sha256 :: ds.map (fun r => hash r.content)) →
        d2.title = (ds.map (fun r => some r.title)).getLastD d.title ∧
        d2.created_at =
          (ds.map (fun r => r.created_at)).getLastD d.created_at ∧
        d2.content = (ds.map (fun r => r.content)).getLastD d.content ∧
        d2.ingested_at = (ds.map (fun _ => now)).getLastD d.ingested_at) := by
  intro ds
  induction ds with
  | nil =>
    intro db n d hwf hfind
    exact ⟨d, hfind, hwf, rfl, rfl, fun _ => ⟨rfl, rfl, rfl, rfl⟩⟩
  | cons r rest ih =>
    intro db n d hwf hfind
    rw [convFold_cons]
    by_cases hsha : (d.sha256 == hash r.content) = true
    · rw [upsert_unchanged hash now "chatgpt" p (some r.title) r.created_at
        r.content hfind hsha]
      rcases ih db (n + 1) d hwf hfind with ⟨d2, h1, h2, h3, h4, _⟩
      refine ⟨d2, h1, h2, h3, ?_, ?_⟩
      · rw [List.map_cons, List.getLastD_cons]
        cases hrest : rest with
        | nil =>
          simp only [List.map_nil, List.getLastD_nil]
          rw [hrest] at h4
          simp only [List.map_nil, List.getLastD_nil] at h4
          rw [h4]
          exact beq_iff_eq.mp hsha
        | cons r2 rest2 =>
          rw [getLastD_ne_nil (by simp) (hash r.content) d.sha256]
          rw [← hrest]
          exact h4
      · intro hchain
        exfalso
        rw [List.map_cons] at hchain
        exact (List.chain'_cons.mp hchain).1 (beq_iff_eq.mp hsha)
    · have hsha2 : (d.sha256 == hash r.content) = false := by
        simpa using hsha
      have hfind1 := find?_after_update hash now "chatgpt" p (some r.title)
        r.created_at r.content hfind hsha2
      have hwf1 : WF hash (upsert_doc hash now "chatgpt" p (some r.title)
          r.created_at r.content db) :=
        wf_upsert hash now "chatgpt" p (some r.title) r.created_at
          r.content hwf
      rcases ih _ (n + 1)
        (updWith (some r.title) r.created_at r.content (hash r.content) now
          d.id d) hwf1 hfind1 with ⟨d2, h1, h2, h3, h4, h5⟩
      have hdid : (updWith (some r.title) r.created_at r.content
          (hash r.content) now d.id d).id = d.id :=
        updWith_id _ _ _ _ _ _ _
      have hdfields := updWith_hit (some r.title) r.created_at r.content
        (hash r.content) now d
      refine ⟨d2, h1, h2, by rw [h3, hdid], ?_, ?_⟩
      · rw [List.map_cons, List.getLastD_cons, h4]
        congr 1
        rw [hdfields]
      · intro hchain
        rw [List.map_cons] at hchain
        have hchain2 : List.Chain' (fun a b => a ≠ b)
            ((updWith (some r.title) r.created_at r.content
              (hash r.content) now d.id d).sha256 ::
              rest.map (fun r2 => hash r2.content)) := by
          rw [hdfields]
          exact (List.chain'_cons.mp hchain).2
        rcases h5 hchain2 with ⟨ht, hca, hc, hia⟩
        refine ⟨?_, ?_, ?_, ?_⟩
        · rw [List.map_cons, List.getLastD_cons, ht]
          congr 1
          rw [hdfields]
        · rw [List.map_cons, List.getLastD_cons, hca]
          congr 1
          rw [hdfields]
        · rw [List.map_cons, List.getLastD_cons, hc]
          congr 1
          rw [hdfields]
        · rw [List.map_cons, List.getLastD_cons, hia]
          congr 1
          rw [hdfields]

/-- C9 (amended): every conversation of one conversations .json file is
upserted under the same (source, path) key, so after ingesting the file
exactly one record is live for it, counted once per conversation; its
content digest is that of the last conversation yielded, and when
consecutive conversations have distinct digests the whole record (title,
created_at, content, timestamp) is the last conversation's — a
conversation whose content digest equals the stored one leaves the record
untouched, so earlier fields can survive (see the counterexample). -/
theorem c9_single_file_one_record (hash : String → String) (now p : String)
    (ds : List RawDoc) (db : DB) (n : Nat) (hwf : WF hash db)
    (hne : ds ≠ [])
    (hfind : db.docs.find? (keyMatches "chatgpt" p) = none) :
    ∃ dbOut : DB,
      ingestFile hash now db n (VaultFile.convJson p (Except.ok ds)) =
        Except.ok (dbOut, n + ds.length) ∧
      ∃ d2, dbOut.docs.find? (keyMatches "chatgpt" p) = some d2 ∧
        dbOut.docs.filter (keyMatches "chatgpt" p) = [d2] ∧
        d2.sha256 = hash (ds.getLast hne).content ∧
        (List.Chain' (fun a b => a ≠ b)
            (ds.map (fun r => hash r.content)) →
          d2.title = some (ds.getLast hne).title ∧
          d2.created_at = (ds.getLast hne).created_at ∧
          d2.content = (ds.getLast hne).content ∧
          d2.ingested_at = now) := by
  obtain ⟨r, rest, rfl⟩ : ∃ r rest, ds = r :: rest := by
    cases ds with
    | nil => exact absurd rfl hne
    | cons r rest => exact ⟨r, rest, rfl⟩
  refine ⟨(convFold hash now p (r :: rest) (db, n)).1, ?_, ?_⟩
  · show Except.ok (convFold hash now p (r :: rest) (db, n)) = _
    rw [← convFold_snd hash now p (r :: rest) db n]
  · rw [convFold_cons]
    have hfind1 := find?_after_insert hash now "chatgpt" p (some r.title)
      r.created_at r.content hfind
    have hwf1 := wf_upsert hash now "chatgpt" p (some r.title) r.created_at
      r.content hwf
    rcases convFold_key hash now p rest _ (n + 1)
      ⟨db.nextId, "chatgpt", p, some r.title, r.created_at, r.content,
        hash r.content, now⟩ hwf1 hfind1 with ⟨d2, h1, h2, _, h4, h5⟩
    refine ⟨d2, h1, filter_key_singleton hash h2 h1, ?_, ?_⟩
    · rw [h4]
      have hmap := getLastD_map (fun r2 => hash r2.content) (r :: rest) hne
        (hash r.content)
      rw [List.map_cons, List.getLastD_cons] at hmap
      exact hmap
    · intro hchain
      have hchain2 : List.Chain' (fun a b => a ≠ b)
          ((⟨db.nextId, "chatgpt", p, some r.title, r.created_at, r.content,
            hash r.content, now⟩ : Doc).sha256 ::
            rest.map (fun r2 => hash r2.content)) := by
        rw [List.map_cons] at hchain
        exact hchain
      rcases h5 hchain2 with ⟨ht, hca, hc, hia⟩
      refine ⟨?_, ?_, ?_, ?_⟩
      · rw [ht]
        have hmap := getLastD_map (fun r2 => some r2.title) (r :: rest) hne
          (some r.title)
        rw [List.map_cons, List.getLastD_cons] at hmap
        exact hmap
      · rw [hca]
        have hmap := getLastD_map (fun r2 => r2.created_at) (r :: rest) hne
          r.created_at
        rw [List.map_cons, List.getLastD_cons] at hmap
        exact hmap
      · rw [hc]
        have hmap := getLastD_map (fun r2 => r2.content) (r :: rest) hne
          r.content
        rw [List.map_cons, List.getLastD_cons] at hmap
        exact hmap
      · rw [hia]
        have hmap := getLastD_map (fun _ : RawDoc => now) (r :: rest) hne
          now
        rw [List.map_cons, List.getLastD_cons] at hmap
        exact hmap

/-- C9 counterexample: a file yielding two conversations with identical
content but different titles leaves one live record whose title is the
first conversation's, not the last one's — the earlier record is not
overwritten by the next when the digests coincide. -/
theorem c9_counterexample :
    ingestFile idHash "2025-04-01T00:00:00+00:00" DB.empty 0 dupConvFile =
      Except.ok (c9DbOut, 2) ∧
    c9DbOut.docs.map Doc.title = [some "First title"] ∧
    (some "First title" : Option String) ≠ some "Second title" := by
  refine ⟨by decide, by decide, by decide⟩

/-- C9 witness: two distinct-content conversations from one file into an
empty store. -/
theorem c9_witness :
    ∃ dbOut : DB,
      ingestFile idHash "2025-05-01T00:00:00+00:00" DB.empty 0
          (VaultFile.convJson "conv.json" (Except.ok c9ds)) =
        Except.ok (dbOut, 0 + c9ds.length) ∧
      ∃ d2, dbOut.docs.find? (keyMatches "chatgpt" "conv.json") = some d2 ∧
        dbOut.docs.filter (keyMatches "chatgpt" "conv.json") = [d2] ∧
        d2.sha256 = idHash (c9ds.getLast (by decide)).content ∧
        (List.Chain' (fun a b => a ≠ b)
            (c9ds.map (fun r => idHash r.content)) →
          d2.title = some (c9ds.getLast (by decide)).title ∧
          d2.created_at = (c9ds.getLast (by decide)).created_at ∧
          d2.content = (c9ds.getLast (by decide)).content ∧
          d2.ingested_at = "2025-05-01T00:00:00+00:00") :=
  c9_single_file_one_record idHash "2025-05-01T00:00:00+00:00" "conv.json"
    c9ds DB.empty 0 (wf_empty idHash) (by decide) (by decide)
